import Mathlib

set_option maxHeartbeats 1000000

/-! Shallow embedding of the metadata-ingestion program `ingest_papers.py`.
Python strings are modelled as lists of characters (`Str`), Python `None` as
`Option.none`, and functions that can raise an uncaught exception return
`Except Unit`.  External collaborators (the PDF reader, the HTTP service and
the parsed XML tree) are modelled by explicit input data describing the
outcome of each external call. -/

abbrev Str := List Char

/-- The whitespace characters recognised by Python `str.split()` / `str.strip()`. -/
def pyIsSpace (c : Char) : Bool :=
  c = ' ' || c = '\t' || c = '\n' || c = '\r' || c = '\x0b' || c = '\x0c'

/-- Keep the values of a list of optional strings that are truthy in Python
(neither `None` nor the empty string), in order. -/
def listTruthy (xs : List (Option Str)) : List Str :=
  xs.filterMap fun o =>
    match o with
    | some s => if s = [] then none else some s
    | none => none

/-- Python `a or b` on optional strings (`a` unless it is falsy). -/
def pyOrStr (a b : Option Str) : Option Str :=
  match a with
  | some s => if s = [] then b else some s
  | none => b

/-- Python falsiness of an optional string (`None` or empty). -/
def optFalsy (o : Option Str) : Bool :=
  match o with
  | some s => s = []
  | none => true

/-- Drop leading Python whitespace. -/
def strTrimLeft : Str → Str
  | [] => []
  | c :: r => if pyIsSpace c then strTrimLeft r else c :: r

/-- Python `str.strip()`: drop leading and trailing whitespace. -/
def strTrim (s : Str) : Str :=
  (strTrimLeft ((strTrimLeft s).reverse)).reverse

/-- Python `str.split()` with no argument: split on whitespace runs,
dropping empty pieces.  A non-whitespace character extends the first piece
of the tail split when the next character is also non-whitespace, and
starts a new piece otherwise. -/
def wsSplit : Str → List Str
  | [] => []
  | c :: rest =>
    if pyIsSpace c then wsSplit rest
    else
      match rest, wsSplit rest with
      | [], _ => (c :: []) :: []
      | d :: _, tailSplit =>
        if pyIsSpace d then (c :: []) :: tailSplit
        else
          match tailSplit with
          | w :: ws' => (c :: w) :: ws'
          | [] => (c :: []) :: []

/-- Python `sep.join(parts)`. -/
def joinWith (sep : Str) : List Str → Str
  | [] => []
  | x :: [] => x
  | x :: y :: rest => x ++ sep ++ joinWith sep (y :: rest)

/-- Python `str.split(sep)` for a one-character separator. -/
def splitOnChar (sep : Char) : Str → List Str
  | [] => [[]]
  | c :: rest =>
    if c = sep then [] :: splitOnChar sep rest
    else
      match splitOnChar sep rest with
      | h :: t => (c :: h) :: t
      | [] => [[c]]

/-- Python `str.replace(pat, rep)` (leftmost, non-overlapping occurrences)
for a non-empty pattern; the fuel argument (initially the string length,
enough since every step consumes at least one character) makes the
recursion structural. -/
def replaceStrGo (pat rep : Str) : Nat → Str → Str
  | _, [] => []
  | 0, s => s
  | fuel + 1, c :: rest =>
    if pat ≠ [] ∧ pat.isPrefixOf (c :: rest) then
      rep ++ replaceStrGo pat rep fuel (rest.drop (pat.length - 1))
    else c :: replaceStrGo pat rep fuel rest

def replaceStr (pat rep s : Str) : Str := replaceStrGo pat rep s.length s

/-- Python `str.lower()`. -/
def strLower (s : Str) : Str := s.map Char.toLower

/-- `normalize_whitespace` (ingest_papers.py): `None` for a falsy input, else
`" ".join(value.split()).strip() or None`. -/
def normalize_whitespace (value : Option Str) : Option Str :=
  match value with
  | none => none
  | some v =>
    if v = [] then none
    else
      let r := strTrim (joinWith (' ' :: []) (wsSplit v))
      if r = [] then none else some r

/-- `element_text` (ingest_papers.py), with an XML element modelled by the
`" ".join(element.itertext())` string it would produce (`none` when the
element is absent). -/
def element_text_opt (joined : Option Str) : Option Str :=
  match joined with
  | none => none
  | some s => normalize_whitespace (some s)

/-- A Python `datetime.date` value. -/
structure PyDate where
  year : Nat
  month : Nat
  day : Nat
deriving DecidableEq, Repr

def isLeap (y : Nat) : Bool := y % 4 = 0 && (y % 100 ≠ 0 || y % 400 = 0)

def daysInMonth (y m : Nat) : Nat :=
  if m = 2 then (if isLeap y then 29 else 28)
  else if m = 4 ∨ m = 6 ∨ m = 9 ∨ m = 11 then 30
  else 31

/-- Validity of `datetime.date(y, m, d)` (the constructor raises otherwise). -/
def validDate (y m d : Nat) : Bool :=
  1 ≤ m && m ≤ 12 && 1 ≤ d && d ≤ daysInMonth y m

/-- A regex word character (`\w`), restricted to ASCII. -/
def isWordChar (c : Char) : Bool := c.isAlphanum || c = '_'

/-- `\b` holds before the current position, given the previous character. -/
def boundaryBefore : Option Char → Bool
  | none => true
  | some c => !isWordChar c

/-- `\b` holds at the start of the remaining string. -/
def nonWordAfter : Str → Bool
  | [] => true
  | c :: _ => !isWordChar c

def digitVal (c : Char) : Nat := c.toNat - '0'.toNat

/-- Does the string start with `(19|20)\d{2}`? -/
def yearShapeAt : Str → Bool
  | a :: b :: c :: d :: _ =>
    ((a = '1' && b = '9') || (a = '2' && b = '0')) && c.isDigit && d.isDigit
  | _ => false

/-- Does `(19|20)\d{2}` occur anywhere as a substring (boundaries ignored)? -/
def containsYearToken : Str → Bool
  | [] => false
  | c :: rest => yearShapeAt (c :: rest) || containsYearToken rest

/-- Match `(19|20)\d{2}-\d{2}-\d{2}\b` at the current position, returning
year, month and day. -/
def shape1 (s : Str) : Option (Nat × Nat × Nat) :=
  if yearShapeAt s then
    match s with
    | a :: b :: c :: d :: '-' :: e :: f :: '-' :: g :: h :: rest =>
      if e.isDigit && f.isDigit && g.isDigit && h.isDigit && nonWordAfter rest then
        some (1000 * digitVal a + 100 * digitVal b + 10 * digitVal c + digitVal d,
          10 * digitVal e + digitVal f, 10 * digitVal g + digitVal h)
      else none
    | _ => none
  else none

/-- Match `(19|20)\d{2}-\d{2}\b` at the current position, returning year and
month. -/
def shape2 (s : Str) : Option (Nat × Nat) :=
  if yearShapeAt s then
    match s with
    | a :: b :: c :: d :: '-' :: e :: f :: rest =>
      if e.isDigit && f.isDigit && nonWordAfter rest then
        some (1000 * digitVal a + 100 * digitVal b + 10 * digitVal c + digitVal d,
          10 * digitVal e + digitVal f)
      else none
    | _ => none
  else none

/-- Match `(19|20)\d{2}\b` at the current position, returning the year. -/
def shape3 (s : Str) : Option Nat :=
  if yearShapeAt s then
    match s with
    | a :: b :: c :: d :: rest =>
      if nonWordAfter rest then
        some (1000 * digitVal a + 100 * digitVal b + 10 * digitVal c + digitVal d)
      else none
    | _ => none
  else none

/-- `re.search` for `\b(19|20)\d{2}-\d{2}-\d{2}\b`: leftmost match. -/
def search1 : Option Char → Str → Option (Nat × Nat × Nat)
  | _, [] => none
  | prev, c :: rest =>
    match (if boundaryBefore prev then shape1 (c :: rest) else none) with
    | some r => some r
    | none => search1 (some c) rest

/-- `re.search` for `\b(19|20)\d{2}-\d{2}\b`: leftmost match. -/
def search2 : Option Char → Str → Option (Nat × Nat)
  | _, [] => none
  | prev, c :: rest =>
    match (if boundaryBefore prev then shape2 (c :: rest) else none) with
    | some r => some r
    | none => search2 (some c) rest

/-- `re.search` for `\b(19|20)\d{2}\b`: leftmost match. -/
def search3 : Option Char → Str → Option Nat
  | _, [] => none
  | prev, c :: rest =>
    match (if boundaryBefore prev then shape3 (c :: rest) else none) with
    | some r => some r
    | none => search3 (some c) rest

/-- `parse_publication_date` (ingest_papers.py): try full ISO date, then
year-month, then bare year; `datetime.date`/`fromisoformat` raise on an
out-of-range month or day, which propagates (`Except.error`). -/
def parse_publication_date (value : Option Str) : Except Unit (Option PyDate) :=
  match value with
  | none => .ok none
  | some v =>
    if v = [] then .ok none
    else
      let s := strTrim v
      match search1 none s with
      | some (y, m, d) =>
        if validDate y m d then .ok (some ⟨y, m, d⟩) else .error ()
      | none =>
        match search2 none s with
        | some (y, m) =>
          if validDate y m 1 then .ok (some ⟨y, m, 1⟩) else .error ()
        | none =>
          match search3 none s with
          | some y => .ok (some ⟨y, 1, 1⟩)
          | none => .ok none

/-- `extract_year` (ingest_papers.py): first `\b(19|20)\d{2}\b` in the text. -/
def extract_year (text : Str) : Option Nat := search3 none text

/-- Python `str.splitlines()` line-break characters. -/
def isLineBreak (c : Char) : Bool :=
  c = '\n' || c = '\r' || c = '\x0b' || c = '\x0c' ||
  c = '\x1c' || c = '\x1d' || c = '\x1e' || c = '\x85' ||
  c = '\u2028' || c = '\u2029'

/-- Python `str.splitlines()`. -/
def pySplitlines : Str → List Str
  | [] => []
  | '\r' :: '\n' :: rest2 => [] :: pySplitlines rest2
  | c :: rest =>
    if isLineBreak c then [] :: pySplitlines rest
    else
      match pySplitlines rest with
      | [] => (c :: []) :: []
      | l :: ls => (c :: l) :: ls

/-- `split_authors` (ingest_papers.py): replace `" and "` (case-sensitive)
and `";"` by commas, split on commas, trim parts, drop empties. -/
def split_authors (line : Str) : List Str :=
  let normalized := replaceStr (';' :: []) (',' :: []) (replaceStr " and ".data (',' :: []) line)
  ((splitOnChar ',' normalized).map strTrim).filter (fun p => p ≠ [])

/-- `split_keywords` (ingest_papers.py). -/
def split_keywords (line : Str) : List Str :=
  ((splitOnChar ',' (replaceStr (';' :: []) (',' :: []) line)).map strTrim).filter (fun p => p ≠ [])

/-- The group of `\s*(.+)` (with `.` not matching a newline), following the
regex backtracking order: the first whitespace run is consumed greedily,
then given back one character at a time until `.+` can match. -/
def dotPlusTail (rest : Str) : Option Str :=
  let r2 := rest.dropWhile pyIsSpace
  if r2 ≠ [] then some (r2.takeWhile (fun c => c ≠ '\n'))
  else
    match (rest.takeWhile pyIsSpace).reverse.dropWhile (fun c => c = '\n') with
    | c :: _ => some (c :: [])
    | [] => none

/-- After a label word has been matched: the `s?\s*[:\-]\s*(.+)` tail shared
by the author and keyword label patterns, returning the group. -/
def labelTail (s : Str) : Option Str :=
  let s1 := match s with
            | c :: rest => if c.toLower = 's' then rest else s
            | [] => []
  let s2 := s1.dropWhile pyIsSpace
  match s2 with
  | c :: rest => if c = ':' ∨ c = '-' then dotPlusTail rest else none
  | [] => none

/-- Try `Authors?\s*[:\-]\s*(.+)` (IGNORECASE) at the current position. -/
def matchAuthorAt (s : Str) : Option Str :=
  if (s.take 6).map Char.toLower = "author".data then labelTail (s.drop 6) else none

/-- Try `(?:Keywords?|Index Terms?)\s*[:\-]\s*(.+)` (IGNORECASE) at the
current position. -/
def matchKwAt (s : Str) : Option Str :=
  if (s.take 7).map Char.toLower = "keyword".data then labelTail (s.drop 7)
  else if (s.take 10).map Char.toLower = "index term".data then labelTail (s.drop 10)
  else none

/-- `re.search`: try the position matcher at every position, leftmost first. -/
def searchLabel (matchAt : Str → Option Str) : Str → Option Str
  | [] => none
  | c :: rest =>
    match matchAt (c :: rest) with
    | some g => some g
    | none => searchLabel matchAt rest

/-- `extract_keywords` (ingest_papers.py). -/
def extract_keywords (text : Str) : List Str :=
  match searchLabel matchKwAt text with
  | none => []
  | some g =>
    match pySplitlines g with
    | l :: _ => split_keywords l
    | [] => []

/-- `extract_authors` (ingest_papers.py): scan the first 5 lines for an
author label; else use the second line when it has at most 120 characters. -/
def findAuthorLabel : List Str → Option Str
  | [] => none
  | l :: rest =>
    match searchLabel matchAuthorAt l with
    | some g => some g
    | none => findAuthorLabel rest

def extract_authors (lines : List Str) : List Str :=
  match findAuthorLabel (lines.take 5) with
  | some g => split_authors g
  | none =>
    match lines.get? 1 with
    | some l1 => if l1.length ≤ 120 then split_authors l1 else []
    | none => []

/-- `extract_title` (ingest_papers.py). -/
def extract_title (lines : List Str) : Option Str := lines.head?

/-- One of the abstract terminators `\n\s*\n`, `\bIntroduction\b`,
`\bKeywords\b` matches here; `prev` is the last character of the group. -/
def isTermAt (prev : Char) (cs : Str) : Bool :=
  (match cs with
   | '\n' :: rest => (rest.takeWhile pyIsSpace).contains '\n'
   | _ => false)
  || (!isWordChar prev && (cs.take 12).map Char.toLower == "introduction".data
        && nonWordAfter (cs.drop 12))
  || (!isWordChar prev && (cs.take 8).map Char.toLower == "keywords".data
        && nonWordAfter (cs.drop 8))

/-- Lazily extend the group `(.+?)` (DOTALL) one character at a time until a
terminator matches; no terminator can match at the very end of the input. -/
def findGroupAux (accRev : Str) (lastC : Char) : Str → Option Str
  | [] => none
  | c :: rest2 =>
    if isTermAt lastC (c :: rest2) then some accRev.reverse
    else findGroupAux (c :: accRev) c rest2

def findGroup : Str → Option Str
  | [] => none
  | c :: rest => findGroupAux (c :: []) c rest

/-- Try group start positions `cs.drop k`, `cs.drop (k-1)`, ..., `cs` —
the backtracking order of `\s*[:\-]?\s*` before the lazy group. -/
def tryStarts (cs : Str) : Nat → Option Str
  | 0 => findGroup cs
  | k + 1 =>
    match findGroup (cs.drop (k + 1)) with
    | some g => some g
    | none => tryStarts cs k

/-- The `\s*[:\-]?\s*(.+?)(terminator)` tail of the abstract pattern. -/
def abstractTail (cs : Str) : Option Str :=
  let s1 := cs.dropWhile pyIsSpace
  let s2 := match s1 with
            | c :: r => if c = ':' ∨ c = '-' then r else s1
            | [] => []
  let s3 := s2.dropWhile pyIsSpace
  tryStarts cs (cs.length - s3.length)

/-- Try the abstract pattern at the current position. -/
def matchAbstractAt (prev : Option Char) (cs : Str) : Option Str :=
  if boundaryBefore prev && (cs.take 8).map Char.toLower == "abstract".data
      && nonWordAfter (cs.drop 8) then
    abstractTail (cs.drop 8)
  else none

def searchAbstract : Option Char → Str → Option Str
  | _, [] => none
  | prev, c :: rest =>
    match matchAbstractAt prev (c :: rest) with
    | some g => some g
    | none => searchAbstract (some c) rest

/-- `extract_abstract` (ingest_papers.py). -/
def extract_abstract (text : Str) : Option Str :=
  match searchAbstract none text with
  | some g => normalize_whitespace (some g)
  | none => none

/-- One metadata record (the Python dict assembled by either extractor). -/
structure Record where
  title : Option Str
  document_type : Option Str
  publication_date : Option PyDate
  journal_title : Option Str
  book_title : Option Str
  publisher : Option Str
  authors : Option (List Str)
  affiliations : Option (List Str)
  countries : Option (List Str)
  abstract : Option Str
  year : Option Nat
  keywords : Option (List Str)
  raw_text_snippet : Option Str
deriving DecidableEq, Repr

/-- `extract_metadata` (ingest_papers.py): the heuristic text extractor. -/
def extract_metadata (text : Str) : Record :=
  let lines := ((pySplitlines text).map strTrim).filter (fun l => l ≠ [])
  let title := extract_title lines
  let authors := extract_authors lines
  let year := extract_year text
  let keywords := extract_keywords text
  let abstract := extract_abstract text
  let raw_text_snippet := if text ≠ [] then some (strTrim (text.take 500)) else none
  { title := title
    document_type := none
    publication_date := none
    journal_title := none
    book_title := none
    publisher := none
    authors := if authors = [] then none else some authors
    affiliations := none
    countries := none
    abstract := abstract
    year := year
    keywords := if keywords = [] then none else some keywords
    raw_text_snippet := raw_text_snippet }

/-- Strict lexicographic order on Python strings (by code point). -/
def strLt : Str → Str → Bool
  | _, [] => false
  | [], _ :: _ => true
  | a :: xs, b :: ys => if a < b then true else if b < a then false else strLt xs ys

/-- Insert into a strictly sorted list, skipping an already-present value. -/
def insertDedup (x : Str) : List Str → List Str
  | [] => x :: []
  | y :: ys =>
    if strLt x y then x :: y :: ys
    else if x = y then y :: ys
    else y :: insertDedup x ys

/-- Python `sorted(set(xs))` for strings: the strictly increasing
enumeration of the distinct values. -/
def sortedSet : List Str → List Str
  | [] => []
  | x :: xs => insertDedup x (sortedSet xs)

/-- A `<date>` element: its `when` attribute and its text. -/
structure DateNode where
  whenAttr : Option Str
  text : Option Str
deriving DecidableEq, Repr

/-- An `<affiliation>` element, modelled by the joined `itertext` string of
each of its `orgName` descendants and of its `address` descendant. -/
structure AffNode where
  orgs : List Str
  address : Option Str
deriving DecidableEq, Repr

/-- An `<author>` element: the text results of the queries
`parse_grobid_author`, `extract_affiliations` and `extract_countries` run on
it (surname/forename texts, affiliation nodes, country texts). -/
structure AuthorNode where
  surname : Option Str
  forenames : List (Option Str)
  affiliations : List AffNode
  countryTexts : List (Option Str)
deriving DecidableEq, Repr

/-- The nodes consulted by `extract_document_type`: the first `biblStruct`
element's `type` attribute (outer `none` = no element), the `classCode`
texts, and the `textClass` keyword `term` texts. -/
structure DocTypeNodes where
  biblStruct : Option (Option Str)
  classCodes : List (Option Str)
  terms : List (Option Str)
deriving DecidableEq, Repr

/-- The parsed TEI header: the results of the fixed tree queries performed
by `extract_metadata_grobid` (an option is `none` when the query found no
element; `findtext` of an empty element gives `some []`). -/
structure TeiDoc where
  titleStmtTitle : Option Str
  docTypeNodes : DocTypeNodes
  sourceDescAuthors : List AuthorNode
  titleStmtAuthors : List AuthorNode
  keywordTerms : List (Option Str)
  pubStmtDates : List DateNode
  imprintDates : List DateNode
  journalTitle : Option Str
  bookTitleM : Option Str
  monogrTitle : Option Str
  pubStmtPublisher : Option Str
  imprintPublisher : Option Str
  abstractJoined : Option Str
deriving DecidableEq, Repr

/-- Outcome of the GROBID call in `extract_metadata_grobid`: a transport
error or non-success status, an unparsable XML body, or a parsed document. -/
inductive GrobidResponse where
  | transportError
  | parseError
  | ok (doc : TeiDoc)
deriving DecidableEq, Repr

/-- `parse_grobid_author` (ingest_papers.py). -/
def parse_grobid_author (a : AuthorNode) : Option Str :=
  let surname := a.surname.getD []
  let forename := if a.forenames ≠ [] then joinWith (' ' :: []) (listTruthy a.forenames) else []
  let full_name := strTrim (joinWith (' ' :: []) (([forename, surname]).filter (fun p => p ≠ [])))
  if full_name = [] then none else some full_name

/-- `extract_affiliations` (ingest_papers.py). -/
def extract_affiliations (a : AuthorNode) : List Str :=
  let affiliations : List (Option Str) := (a.affiliations.map fun aff =>
    let parts := listTruthy ((aff.orgs.map fun o => element_text_opt (some o)) ++
      [element_text_opt aff.address])
    if parts ≠ [] then
      [normalize_whitespace (some (joinWith (',' :: ' ' :: []) parts))]
    else []).flatten
  listTruthy affiliations

/-- `extract_countries` (ingest_papers.py). -/
def extract_countries (a : AuthorNode) : List Str :=
  listTruthy (a.countryTexts.map normalize_whitespace)

/-- First truthy text in a list of node texts. -/
def firstTruthy : List (Option Str) → Option Str
  | [] => none
  | o :: rest =>
    match o with
    | some s => if s = [] then firstTruthy rest else some s
    | none => firstTruthy rest

/-- The closed document-type set of `extract_document_type`. -/
def docTypeSet : List Str :=
  ["article".data, "review".data, "book".data, "chapter".data,
   "conference".data, "preprint".data]

/-- The keyword-term scan of `extract_document_type`. -/
def scanTerms : List (Option Str) → Option Str
  | [] => none
  | o :: rest =>
    match o with
    | some t =>
      if t ≠ [] ∧ (wsSplit t).length ≤ 4 then
        let candidate := strLower (strTrim t)
        if candidate ∈ docTypeSet then some candidate else scanTerms rest
      else scanTerms rest
    | none => scanTerms rest

/-- `extract_document_type` (ingest_papers.py). -/
def extract_document_type (n : DocTypeNodes) : Option Str :=
  let fromBibl : Option Str :=
    match n.biblStruct with
    | some (some t) => if t = [] then none else some t
    | _ => none
  match fromBibl with
  | some t => normalize_whitespace (some t)
  | none =>
    match firstTruthy n.classCodes with
    | some t => normalize_whitespace (some t)
    | none => scanTerms n.terms

/-- Bare-year extraction from a date node's truthy text. -/
def tryBareYearText (n : DateNode) : Option Nat :=
  match n.text with
  | some t => if t = [] then none else extract_year t
  | none => none

/-- Bare-year extraction from a date node's truthy `when` attribute. -/
def tryBareYearWhen (n : DateNode) : Option Nat :=
  match n.whenAttr with
  | some w => if w = [] then none else extract_year w
  | none => none

/-- The loop over `publicationStmt` date nodes, returning the `year` and
`publication_date` variables after the loop. -/
def pubStmtDateSearch : List DateNode → Except Unit (Option Nat × Option PyDate)
  | [] => .ok (none, none)
  | n :: rest =>
    match parse_publication_date (pyOrStr n.whenAttr n.text) with
    | .error e => .error e
    | .ok (some d) => .ok (some d.year, some d)
    | .ok none =>
      match tryBareYearText n with
      | some y => .ok (some y, none)
      | none =>
        match tryBareYearWhen n with
        | some y => .ok (some y, none)
        | none => pubStmtDateSearch rest

/-- The loop over `imprint` date nodes. -/
def imprintDateSearch : List DateNode → Except Unit (Option PyDate)
  | [] => .ok none
  | n :: rest =>
    match parse_publication_date (pyOrStr n.whenAttr n.text) with
    | .error e => .error e
    | .ok (some d) => .ok (some d)
    | .ok none => imprintDateSearch rest

/-- The whole date-resolution block of `extract_metadata_grobid`: the
`publicationStmt` search, then — only when it produced no parsed date —
the `imprint` search (which overwrites `year` when it finds a date). -/
def resolveDates (pub imp : List DateNode) : Except Unit (Option Nat × Option PyDate) :=
  match pubStmtDateSearch pub with
  | .error e => .error e
  | .ok (y0, some d) => .ok (y0, some d)
  | .ok (y0, none) =>
    match imprintDateSearch imp with
    | .error e => .error e
    | .ok (some d) => .ok (some d.year, some d)
    | .ok none => .ok (y0, none)

/-- The authors loop: `sourceDesc` authors first; when that yields no author
name, the `titleStmt` authors are scanned as well, appending their
affiliations and countries to those already collected. -/
def collectAuthors (nodes : List AuthorNode) : List Str :=
  nodes.filterMap parse_grobid_author

def collectAffs (nodes : List AuthorNode) : List Str :=
  (nodes.map extract_affiliations).flatten

def collectCountries (nodes : List AuthorNode) : List Str :=
  (nodes.map extract_countries).flatten

/-- `extract_metadata_grobid` (ingest_papers.py): `Except.error` models an
uncaught `ValueError` from `datetime.date`, `.ok none` the `return None`
paths (transport failure / unparsable response). -/
def extract_metadata_grobid (resp : GrobidResponse) : Except Unit (Option Record) :=
  match resp with
  | .transportError => .ok none
  | .parseError => .ok none
  | .ok doc =>
    let authors1 := collectAuthors doc.sourceDescAuthors
    let affs1 := collectAffs doc.sourceDescAuthors
    let countries1 := collectCountries doc.sourceDescAuthors
    let authors := if authors1 = [] then collectAuthors doc.titleStmtAuthors else authors1
    let affs := if authors1 = [] then affs1 ++ collectAffs doc.titleStmtAuthors else affs1
    let countries :=
      if authors1 = [] then countries1 ++ collectCountries doc.titleStmtAuthors else countries1
    let keywords := doc.keywordTerms.filterMap fun o =>
      match o with
      | some t => if t ≠ [] ∧ strTrim t ≠ [] then some (strTrim t) else none
      | none => none
    match resolveDates doc.pubStmtDates doc.imprintDates with
    | .error e => .error e
    | .ok (year, publication_date) =>
      let book_title :=
        if optFalsy doc.journalTitle && optFalsy doc.bookTitleM then doc.monogrTitle
        else doc.bookTitleM
      let publisher :=
        if optFalsy doc.pubStmtPublisher then doc.imprintPublisher else doc.pubStmtPublisher
      .ok (some
        { title := doc.titleStmtTitle
          document_type := extract_document_type doc.docTypeNodes
          publication_date := publication_date
          journal_title := doc.journalTitle
          book_title := book_title
          publisher := publisher
          authors := if authors = [] then none else some authors
          affiliations :=
            if sortedSet affs = [] then none else some (sortedSet affs)
          countries :=
            if sortedSet countries = [] then none else some (sortedSet countries)
          abstract := element_text_opt doc.abstractJoined
          year := year
          keywords := if keywords = [] then none else some keywords
          raw_text_snippet := none })

/-- A Python value stored in a metadata dict. -/
inductive Obj where
  | pyNone
  | str (s : Str)
  | int (n : Nat)
  | date (d : PyDate)
  | list (xs : List Str)
deriving DecidableEq, Repr

def objOfStr : Option Str → Obj
  | none => .pyNone
  | some s => .str s

def objOfList : Option (List Str) → Obj
  | none => .pyNone
  | some l => .list l

/-- The dict literal returned by `extract_metadata_grobid` (12 keys; it has
no `raw_text_snippet` entry). -/
def grobidDict (r : Record) : List (Str × Obj) :=
  [("title".data, objOfStr r.title),
   ("document_type".data, objOfStr r.document_type),
   ("publication_date".data, match r.publication_date with
     | none => .pyNone
     | some d => .date d),
   ("journal_title".data, objOfStr r.journal_title),
   ("book_title".data, objOfStr r.book_title),
   ("publisher".data, objOfStr r.publisher),
   ("authors".data, objOfList r.authors),
   ("affiliations".data, objOfList r.affiliations),
   ("countries".data, objOfList r.countries),
   ("abstract".data, objOfStr r.abstract),
   ("year".data, match r.year with
     | none => .pyNone
     | some y => .int y),
   ("keywords".data, objOfList r.keywords)]

/-- The per-document selection in `main`: `metadata` is the GROBID result
when the service is used, else `None`; `if not metadata:` falls back to the
heuristic extractor — a dict is falsy only when it is empty. -/
def selectMetadata (useGrobid : Bool) (gres : Except Unit (Option Record))
    (text : Str) : Except Unit Record :=
  match (if useGrobid then gres else .ok none) with
  | .error e => .error e
  | .ok mopt =>
    match mopt with
    | none => .ok (extract_metadata text)
    | some r => .ok (if (grobidDict r).isEmpty then extract_metadata text else r)

/-- The snippet overwrite in `main`:
`metadata["raw_text_snippet"] = text[:500].strip() if text else None`. -/
def finalizeRecord (metadata : Record) (text : Str) : Record :=
  { metadata with
    raw_text_snippet := if text ≠ [] then some (strTrim (text.take 500)) else none }

/-- Outcome of `page.extract_text()` on one page: a string (possibly absent,
guarded by `or ""`) or an uncaught exception. -/
inductive PageOutcome where
  | ok (text : Option Str)
  | err
deriving DecidableEq, Repr

/-- Outcome of constructing `PdfReader`: a page list, a `PdfReadError`
(the only caught exception class), or any other exception (for example
`FileNotFoundError` for a nonexistent path). -/
inductive ReaderOutcome where
  | ok (pages : List PageOutcome)
  | pdfReadError
  | otherError
deriving DecidableEq, Repr

/-- The page loop of `extract_text_from_pdf`. -/
def collectChunks : List PageOutcome → Except Unit (List Str)
  | [] => .ok []
  | p :: rest =>
    match p with
    | .err => .error ()
    | .ok t =>
      let page_text := match t with
        | some s => if s = [] then [] else s
        | none => []
      match collectChunks rest with
      | .error e => .error e
      | .ok cs => .ok (if page_text ≠ [] then page_text :: cs else cs)

/-- `extract_text_from_pdf` (ingest_papers.py): only `PdfReadError` is
caught; every other exception propagates. -/
def extract_text_from_pdf (reader : ReaderOutcome) (maxPages : Nat) : Except Unit Str :=
  match reader with
  | .pdfReadError => .ok []
  | .otherError => .error ()
  | .ok pages =>
    match collectChunks (pages.take maxPages) with
    | .error e => .error e
    | .ok chunks => .ok (joinWith ('\n' :: []) chunks)

/-- A TEI header on which every query returns nothing. -/
def emptyTeiDoc : TeiDoc :=
  { titleStmtTitle := none
    docTypeNodes := { biblStruct := none, classCodes := [], terms := [] }
    sourceDescAuthors := []
    titleStmtAuthors := []
    keywordTerms := []
    pubStmtDates := []
    imprintDates := []
    journalTitle := none
    bookTitleM := none
    monogrTitle := none
    pubStmtPublisher := none
    imprintPublisher := none
    abstractJoined := none }

/-- The all-absent record (the structured path's output on `emptyTeiDoc`). -/
def emptyGrobidRecord : Record :=
  { title := none, document_type := none, publication_date := none,
    journal_title := none, book_title := none, publisher := none,
    authors := none, affiliations := none, countries := none,
    abstract := none, year := none, keywords := none, raw_text_snippet := none }

/-- A header whose first `publicationStmt` date node carries only a bare
year while the second carries a fully parsable date. -/
def dateDocA : TeiDoc :=
  { emptyTeiDoc with
    pubStmtDates :=
      [{ whenAttr := some ("n.d.".data), text := some ("in 2020".data) },
       { whenAttr := some ("2021-05-06".data), text := none }] }

/-- A header with no `publicationStmt` date nodes and one `imprint` date
node whose attribute is unparsable but whose text carries a bare year. -/
def dateDocB : TeiDoc :=
  { emptyTeiDoc with
    imprintDates := [{ whenAttr := some ("n.d.".data), text := some ("in 2020".data) }] }

/-- A header with one fully dated `publicationStmt` date node. -/
def dateDocC : TeiDoc :=
  { emptyTeiDoc with
    pubStmtDates := [{ whenAttr := some ("2020-03-15".data), text := none }] }

/-- A header whose title element exists but is empty (`findtext` gives `""`). -/
def emptyTitleDoc : TeiDoc :=
  { emptyTeiDoc with titleStmtTitle := some [] }

/-- A header with one author carrying duplicate affiliations. -/
def affDoc : TeiDoc :=
  { emptyTeiDoc with
    sourceDescAuthors :=
      [{ surname := some ("Doe".data)
         forenames := []
         affiliations :=
           [{ orgs := ["MIT".data], address := none },
            { orgs := ["MIT".data], address := none },
            { orgs := ["Stanford".data], address := none }]
         countryTexts := [] }] }

/-! ### Lemmas about trimming -/

theorem strTrimLeft_head (s : Str) :
    ∀ c, (strTrimLeft s).head? = some c → pyIsSpace c = false := by
  induction s with
  | nil => intro c h; simp [strTrimLeft] at h
  | cons a r ih =>
    intro c h
    by_cases ha : pyIsSpace a = true
    · rw [strTrimLeft, if_pos ha] at h
      exact ih c h
    · rw [strTrimLeft, if_neg ha] at h
      simp only [List.head?_cons, Option.some.injEq] at h
      subst h
      simpa using ha

theorem strTrimLeft_suffix (s : Str) : ∃ p, s = p ++ strTrimLeft s := by
  induction s with
  | nil => exact ⟨[], rfl⟩
  | cons a r ih =>
    by_cases ha : pyIsSpace a = true
    · obtain ⟨p, hp⟩ := ih
      refine ⟨a :: p, ?_⟩
      rw [strTrimLeft, if_pos ha, List.cons_append, ← hp]
    · refine ⟨[], ?_⟩
      rw [strTrimLeft, if_neg ha, List.nil_append]

theorem strTrimLeft_no_op (s : Str)
    (h : ∀ c, s.head? = some c → pyIsSpace c = false) : strTrimLeft s = s := by
  cases s with
  | nil => rfl
  | cons a r =>
    have ha := h a (by simp)
    rw [strTrimLeft, if_neg (by simp [ha])]

theorem strTrim_no_op (s : Str) (h1 : ∀ c, s.head? = some c → pyIsSpace c = false)
    (h2 : ∀ c, s.reverse.head? = some c → pyIsSpace c = false) : strTrim s = s := by
  unfold strTrim
  rw [strTrimLeft_no_op s h1, strTrimLeft_no_op s.reverse h2, List.reverse_reverse]

theorem strTrim_head (s : Str) :
    ∀ c, (strTrim s).head? = some c → pyIsSpace c = false := by
  intro c h
  unfold strTrim at h
  rw [List.head?_reverse] at h
  rcases htl : strTrimLeft ((strTrimLeft s).reverse) with _ | ⟨x, xs⟩
  · rw [htl] at h; simp at h
  · rw [htl] at h
    obtain ⟨p, hp⟩ := strTrimLeft_suffix ((strTrimLeft s).reverse)
    have hne : strTrimLeft ((strTrimLeft s).reverse) ≠ [] := by rw [htl]; simp
    have hgl : ((strTrimLeft s).reverse).getLast? =
        (strTrimLeft ((strTrimLeft s).reverse)).getLast? := by
      conv_lhs => rw [hp]
      exact List.getLast?_append_of_ne_nil p hne
    rw [List.getLast?_reverse, htl] at hgl
    exact strTrimLeft_head s c (by rw [hgl, h])

theorem strTrim_reverse_head (s : Str) :
    ∀ c, (strTrim s).reverse.head? = some c → pyIsSpace c = false := by
  intro c h
  unfold strTrim at h
  rw [List.reverse_reverse] at h
  exact strTrimLeft_head _ c h

theorem strTrim_idem (s : Str) : strTrim (strTrim s) = strTrim s :=
  strTrim_no_op _ (strTrim_head s) (strTrim_reverse_head s)

theorem strTrim_decomp (s : Str) : ∃ p q, s = p ++ strTrim s ++ q := by
  obtain ⟨p, hp⟩ := strTrimLeft_suffix s
  obtain ⟨p2, hp2⟩ := strTrimLeft_suffix (strTrimLeft s).reverse
  refine ⟨p, p2.reverse, ?_⟩
  have hmid : strTrimLeft s = strTrim s ++ p2.reverse := by
    have h := congrArg List.reverse hp2
    rw [List.reverse_reverse, List.reverse_append] at h
    exact h
  conv_lhs => rw [hp, hmid]
  rw [List.append_assoc]

/-! ### C1: merge rule -/

/-- C1: with the service available, the heuristic extractor's record is used
exactly when the structured call returned `None` (transport failure,
non-success status or unparsable response each yield `.ok none`); any
returned record — including the all-absent one — is a non-empty Python dict,
hence truthy, and is used as-is without triggering the fallback. -/
theorem merge_prefers_structured (r : Record) (text : Str) :
    extract_metadata_grobid .transportError = .ok none ∧
    extract_metadata_grobid .parseError = .ok none ∧
    selectMetadata true (.ok none) text = .ok (extract_metadata text) ∧
    selectMetadata true (.ok (some r)) text = .ok r ∧
    extract_metadata_grobid (.ok emptyTeiDoc) = .ok (some emptyGrobidRecord) ∧
    selectMetadata true (extract_metadata_grobid (.ok emptyTeiDoc)) text = .ok emptyGrobidRecord :=
  ⟨rfl, rfl, rfl, rfl, rfl, rfl⟩

/-! ### C2: text extractor error behaviour -/

/-- C2 counterexample: an open failure outside the caught PDF-error class
(for example `FileNotFoundError` for a nonexistent path) propagates out of
`extract_text_from_pdf` instead of degrading to the empty string. -/
theorem extract_text_raises_on_open_failure :
    extract_text_from_pdf .otherError 2 = .error () := rfl

theorem collectChunks_ok (ps : List PageOutcome) (h : ∀ p ∈ ps, p ≠ .err) :
    ∃ cs, collectChunks ps = .ok cs := by
  induction ps with
  | nil => exact ⟨[], rfl⟩
  | cons p rest ih =>
    obtain ⟨cs, hcs⟩ := ih (fun q hq => h q (List.mem_cons_of_mem _ hq))
    cases p with
    | err => exact absurd rfl (h _ (List.mem_cons_self _ _))
    | ok t =>
      cases t with
      | none => exact ⟨cs, by simp [collectChunks, hcs]⟩
      | some s =>
        by_cases hs : s = []
        · exact ⟨cs, by simp [collectChunks, hcs, hs]⟩
        · exact ⟨s :: cs, by simp [collectChunks, hcs, hs]⟩

/-- C2 amended: a `PdfReadError` while opening the file degrades to the
empty string, and when every consulted page extracts without raising the
function returns a string; but other exceptions (nonexistent file,
per-page extraction failure) propagate. -/
theorem extract_text_degrades (pages : List PageOutcome) (n : Nat) :
    extract_text_from_pdf .pdfReadError n = .ok [] ∧
    ((∀ p ∈ pages.take n, p ≠ .err) →
      ∃ s, extract_text_from_pdf (.ok pages) n = .ok s) := by
  refine ⟨rfl, fun h => ?_⟩
  obtain ⟨cs, hcs⟩ := collectChunks_ok _ h
  exact ⟨joinWith ('\n' :: []) cs, by simp [extract_text_from_pdf, hcs]⟩

theorem extract_text_degrades_witness :
    extract_text_from_pdf .pdfReadError 2 = .ok [] ∧
    ∃ s, extract_text_from_pdf (.ok ((PageOutcome.ok (some ('A' :: []))) :: [])) 2 = .ok s :=
  ⟨(extract_text_degrades [] 2).1,
   (extract_text_degrades ((PageOutcome.ok (some ('A' :: []))) :: []) 2).2 (by decide)⟩

/-! ### C8: snippet overwrite -/

/-- C8 counterexample: the stored snippet is the stripped first 500
characters, not exactly the first 500 characters: for text `" X"` the
stored snippet is `"X"`. -/
theorem snippet_not_exact_first500 :
    (finalizeRecord (extract_metadata []) (' ' :: 'X' :: [])).raw_text_snippet = some ('X' :: []) ∧
    (' ' :: 'X' :: []).take 500 = ' ' :: 'X' :: [] ∧
    some ('X' :: [] : Str) ≠ some (' ' :: 'X' :: []) := by
  exact ⟨rfl, by decide, by decide⟩

/-- C8 amended: for every record and text, the overwrite stores the
whitespace-stripped first 500 characters (`None` for empty text) in
`raw_text_snippet` and leaves every other field unchanged. -/
theorem snippet_overwrite_frame (r : Record) (text : Str) :
    (finalizeRecord r text).raw_text_snippet =
      (if text = [] then none else some (strTrim (text.take 500))) ∧
    (finalizeRecord r text).title = r.title ∧
    (finalizeRecord r text).document_type = r.document_type ∧
    (finalizeRecord r text).publication_date = r.publication_date ∧
    (finalizeRecord r text).journal_title = r.journal_title ∧
    (finalizeRecord r text).book_title = r.book_title ∧
    (finalizeRecord r text).publisher = r.publisher ∧
    (finalizeRecord r text).authors = r.authors ∧
    (finalizeRecord r text).affiliations = r.affiliations ∧
    (finalizeRecord r text).countries = r.countries ∧
    (finalizeRecord r text).abstract = r.abstract ∧
    (finalizeRecord r text).year = r.year ∧
    (finalizeRecord r text).keywords = r.keywords := by
  refine ⟨?_, rfl, rfl, rfl, rfl, rfl, rfl, rfl, rfl, rfl, rfl, rfl, rfl⟩
  by_cases h : text = [] <;> simp [finalizeRecord, h]

/-! ### C3: author splitting -/

/-- C3 counterexample: `" and "` is replaced case-sensitively, so the line
`"Jane Doe AND John Smith"` (reached through the second-line heuristic rule)
yields a single author, not two. -/
theorem split_authors_case_sensitive :
    extract_authors ("A Study of Birds".data :: "Jane Doe AND John Smith".data :: []) =
      ("Jane Doe AND John Smith".data) :: [] ∧
    (("Jane Doe AND John Smith".data) :: [] : List Str) ≠
      ("Jane Doe".data :: "John Smith".data :: []) := by
  exact ⟨by decide, by decide⟩

/-- C3 amended: the author line is split on commas, semicolons and the
lowercase literal `" and "` (case-sensitively — an uppercase `AND` is not a
separator), each part trimmed, empty parts dropped; so `"Jane Doe and John
Smith"` yields two authors, while `"Jane Doe AND John Smith"` stays one. -/
theorem split_authors_spec (line : Str) (r : Str) :
    (r ∈ split_authors line → r ≠ [] ∧ strTrim r = r) ∧
    split_authors ("Jane Doe and John Smith".data) =
      "Jane Doe".data :: "John Smith".data :: [] ∧
    split_authors ("A, B; C".data) = "A".data :: "B".data :: "C".data :: [] ∧
    split_authors ("Jane Doe AND John Smith".data) = ("Jane Doe AND John Smith".data) :: [] ∧
    extract_authors ("T".data :: "Authors: Jane Doe and John Smith".data :: []) =
      "Jane Doe".data :: "John Smith".data :: [] ∧
    extract_authors ("T".data :: "Jane Doe and John Smith".data :: []) =
      "Jane Doe".data :: "John Smith".data :: [] := by
  refine ⟨fun hr => ?_, by decide, by decide, by decide, by decide, by decide⟩
  unfold split_authors at hr
  rw [List.mem_filter] at hr
  obtain ⟨hmem, hne⟩ := hr
  rw [List.mem_map] at hmem
  obtain ⟨x, _, hx⟩ := hmem
  refine ⟨by simpa using hne, ?_⟩
  rw [← hx, strTrim_idem]

theorem split_authors_spec_witness :
    ("Jane Doe".data ≠ [] ∧ strTrim ("Jane Doe".data) = "Jane Doe".data) :=
  (split_authors_spec ("Jane Doe and John Smith".data) ("Jane Doe".data)).1 (by decide)

/-! ### C6: no present-but-empty fields -/

theorem nw_ne_some_nil (v : Option Str) : normalize_whitespace v ≠ some [] := by
  match v with
  | none => simp [normalize_whitespace]
  | some s =>
    simp only [normalize_whitespace]
    by_cases h : s = []
    · simp [h]
    · simp only [h, if_false]
      by_cases h2 : strTrim (joinWith (' ' :: []) (wsSplit s)) = []
      · simp [h2]
      · simp [h2]

theorem element_text_ne_some_nil (j : Option Str) : element_text_opt j ≠ some [] := by
  cases j with
  | none => simp [element_text_opt]
  | some s =>
    show normalize_whitespace (some s) ≠ some []
    exact nw_ne_some_nil _

theorem ifEmpty_ne_some_nil {α : Type} [DecidableEq α] (l : List α) :
    (if l = [] then (none : Option (List α)) else some l) ≠ some [] := by
  by_cases h : l = [] <;> simp [h]

theorem docTypeSet_ne_nil (t : Str) (h : t ∈ docTypeSet) : t ≠ [] := by
  simp only [docTypeSet, List.mem_cons, List.not_mem_nil, or_false] at h
  rcases h with rfl | rfl | rfl | rfl | rfl | rfl <;> decide

theorem scanTerms_ne_some_nil (ts : List (Option Str)) : scanTerms ts ≠ some [] := by
  induction ts with
  | nil => simp [scanTerms]
  | cons o rest ih =>
    cases o with
    | none => simpa [scanTerms] using ih
    | some t =>
      simp only [scanTerms]
      by_cases h1 : t ≠ [] ∧ (wsSplit t).length ≤ 4
      · rw [if_pos h1]
        by_cases h2 : strLower (strTrim t) ∈ docTypeSet
        · rw [if_pos h2]
          intro hc
          exact docTypeSet_ne_nil _ h2 (by injection hc)
        · rw [if_neg h2]; exact ih
      · rw [if_neg h1]; exact ih

theorem extract_document_type_ne_some_nil (n : DocTypeNodes) :
    extract_document_type n ≠ some [] := by
  simp only [extract_document_type]
  cases hfb : (match n.biblStruct with
      | some (some t) => if t = [] then none else some t
      | _ => none : Option Str) with
  | some t => exact nw_ne_some_nil _
  | none =>
    cases hft : firstTruthy n.classCodes with
    | some t2 => exact nw_ne_some_nil _
    | none => exact scanTerms_ne_some_nil n.terms

theorem grobid_fields_ok (doc : TeiDoc) (r : Record)
    (h : extract_metadata_grobid (.ok doc) = .ok (some r)) :
    r.authors ≠ some [] ∧ r.affiliations ≠ some [] ∧ r.countries ≠ some [] ∧
    r.keywords ≠ some [] ∧ r.document_type ≠ some [] ∧ r.abstract ≠ some [] := by
  simp only [extract_metadata_grobid] at h
  cases hres : resolveDates doc.pubStmtDates doc.imprintDates with
  | error e => rw [hres] at h; simp at h
  | ok yp =>
    obtain ⟨y, pd⟩ := yp
    rw [hres] at h
    simp only [Except.ok.injEq, Option.some.injEq] at h
    subst h
    exact ⟨ifEmpty_ne_some_nil _, ifEmpty_ne_some_nil _, ifEmpty_ne_some_nil _,
      ifEmpty_ne_some_nil _, extract_document_type_ne_some_nil _, element_text_ne_some_nil _⟩

theorem heuristic_fields_ok (text : Str) :
    (extract_metadata text).authors ≠ some [] ∧
    (extract_metadata text).affiliations ≠ some [] ∧
    (extract_metadata text).countries ≠ some [] ∧
    (extract_metadata text).keywords ≠ some [] ∧
    (extract_metadata text).document_type ≠ some [] ∧
    (extract_metadata text).abstract ≠ some [] := by
  refine ⟨?_, by simp [extract_metadata], by simp [extract_metadata], ?_, by simp [extract_metadata], ?_⟩
  · exact ifEmpty_ne_some_nil _
  · exact ifEmpty_ne_some_nil _
  · show extract_abstract text ≠ some []
    simp only [extract_abstract]
    cases hs : searchAbstract none text with
    | none => simp
    | some g => exact nw_ne_some_nil _

/-- C6 counterexample: a record can carry a present-but-empty string.  For
whitespace-only text the final snippet overwrite stores `some ""` (Python
`" "[:500].strip()` is `""`, and `" "` is truthy), and the structured path
stores an empty `findtext` title verbatim. -/
theorem empty_string_fields_exist :
    (finalizeRecord (extract_metadata (' ' :: [])) (' ' :: [])).raw_text_snippet = some [] ∧
    ((extract_metadata_grobid (.ok emptyTitleDoc)).toOption.join.map Record.title) =
      some (some []) :=
  ⟨rfl, rfl⟩

/-- C6 amended: in every record assembled for writing, the list/set fields
(authors, affiliations, countries, keywords) are either non-empty or absent,
and the whitespace-normalised string fields (document_type, abstract) are
never the empty string; but the fields copied verbatim from the structured
response (title, journal_title, book_title, publisher) and the
raw_text_snippet can be present as empty strings. -/
theorem assembled_record_fields (resp : GrobidResponse) (text : Str) (r : Record)
    (h : selectMetadata true (extract_metadata_grobid resp) text = .ok r) :
    (finalizeRecord r text).authors ≠ some [] ∧
    (finalizeRecord r text).affiliations ≠ some [] ∧
    (finalizeRecord r text).countries ≠ some [] ∧
    (finalizeRecord r text).keywords ≠ some [] ∧
    (finalizeRecord r text).document_type ≠ some [] ∧
    (finalizeRecord r text).abstract ≠ some [] := by
  have hfields : r.authors ≠ some [] ∧ r.affiliations ≠ some [] ∧ r.countries ≠ some [] ∧
      r.keywords ≠ some [] ∧ r.document_type ≠ some [] ∧ r.abstract ≠ some [] := by
    cases resp with
    | transportError =>
      have : r = extract_metadata text := by
        simpa [selectMetadata, extract_metadata_grobid] using h.symm
      rw [this]
      exact heuristic_fields_ok text
    | parseError =>
      have : r = extract_metadata text := by
        simpa [selectMetadata, extract_metadata_grobid] using h.symm
      rw [this]
      exact heuristic_fields_ok text
    | ok doc =>
      cases hg : extract_metadata_grobid (.ok doc) with
      | error e => rw [hg] at h; simp [selectMetadata] at h
      | ok mopt =>
        rw [hg] at h
        cases mopt with
        | none =>
          have : r = extract_metadata text := by
            simpa [selectMetadata] using h.symm
          rw [this]
          exact heuristic_fields_ok text
        | some g =>
          have hr : r = g := by
            have : (grobidDict g).isEmpty = false := rfl
            simpa [selectMetadata, this] using h.symm
          rw [hr]
          exact grobid_fields_ok doc g hg
  simpa [finalizeRecord] using hfields

theorem assembled_record_fields_witness :
    (finalizeRecord (extract_metadata ('x' :: [])) ('x' :: [])).authors ≠ some [] ∧
    (finalizeRecord (extract_metadata ('x' :: [])) ('x' :: [])).affiliations ≠ some [] ∧
    (finalizeRecord (extract_metadata ('x' :: [])) ('x' :: [])).countries ≠ some [] ∧
    (finalizeRecord (extract_metadata ('x' :: [])) ('x' :: [])).keywords ≠ some [] ∧
    (finalizeRecord (extract_metadata ('x' :: [])) ('x' :: [])).document_type ≠ some [] ∧
    (finalizeRecord (extract_metadata ('x' :: [])) ('x' :: [])).abstract ≠ some [] :=
  assembled_record_fields .transportError ('x' :: []) (extract_metadata ('x' :: [])) rfl

/-! ### C7: year equals publication_date.year -/

theorem pubStmt_year_of_date (l : List DateNode) (y : Option Nat) (d : PyDate)
    (h : pubStmtDateSearch l = .ok (y, some d)) : y = some d.year := by
  induction l with
  | nil => simp [pubStmtDateSearch] at h
  | cons n rest ih =>
    simp only [pubStmtDateSearch] at h
    cases hp : parse_publication_date (pyOrStr n.whenAttr n.text) with
    | error e => rw [hp] at h; simp at h
    | ok od =>
      rw [hp] at h
      cases od with
      | some d2 =>
        simp only [Except.ok.injEq, Prod.mk.injEq, Option.some.injEq] at h
        obtain ⟨hy, hd⟩ := h
        rw [← hy, hd]
      | none =>
        cases ht : tryBareYearText n with
        | some y2 => rw [ht] at h; simp at h
        | none =>
          rw [ht] at h
          cases hw : tryBareYearWhen n with
          | some y2 => rw [hw] at h; simp at h
          | none => rw [hw] at h; exact ih h

theorem resolve_year_of_date (pub imp : List DateNode) (y : Option Nat) (d : PyDate)
    (h : resolveDates pub imp = .ok (y, some d)) : y = some d.year := by
  unfold resolveDates at h
  cases hp : pubStmtDateSearch pub with
  | error e => rw [hp] at h; simp at h
  | ok yp =>
    obtain ⟨y0, pd0⟩ := yp
    rw [hp] at h
    cases pd0 with
    | some d0 =>
      simp only [Except.ok.injEq, Prod.mk.injEq, Option.some.injEq] at h
      obtain ⟨h1, h2⟩ := h
      subst h1
      subst h2
      exact pubStmt_year_of_date pub _ _ hp
    | none =>
      cases hi : imprintDateSearch imp with
      | error e => rw [hi] at h; simp at h
      | ok od =>
        rw [hi] at h
        cases od with
        | some d1 =>
          simp only [Except.ok.injEq, Prod.mk.injEq, Option.some.injEq] at h
          obtain ⟨h1, h2⟩ := h
          rw [← h1, h2]
        | none => simp at h

theorem grobid_year_matches (doc : TeiDoc) (r : Record)
    (h : extract_metadata_grobid (.ok doc) = .ok (some r)) (d : PyDate)
    (hd : r.publication_date = some d) : r.year = some d.year := by
  simp only [extract_metadata_grobid] at h
  cases hres : resolveDates doc.pubStmtDates doc.imprintDates with
  | error e => rw [hres] at h; simp at h
  | ok yp =>
    obtain ⟨y, pd⟩ := yp
    rw [hres] at h
    simp only [Except.ok.injEq, Option.some.injEq] at h
    subst h
    have hpd : pd = some d := hd
    exact resolve_year_of_date doc.pubStmtDates doc.imprintDates y d (hpd ▸ hres)

/-- C7: in every record produced by either extraction path (the heuristic
path never sets a publication date), whenever both `year` and
`publication_date` are set, `year` equals the date's year — the imprint
search overwrites a bare year found earlier whenever it produces a date. -/
theorem year_matches_publication_date (resp : GrobidResponse) (text : Str) (r : Record)
    (y : Nat) (d : PyDate)
    (h : selectMetadata true (extract_metadata_grobid resp) text = .ok r)
    (hy : (finalizeRecord r text).year = some y)
    (hd : (finalizeRecord r text).publication_date = some d) :
    y = d.year := by
  have hy' : r.year = some y := hy
  have hd' : r.publication_date = some d := hd
  cases resp with
  | transportError =>
    have hr : r = extract_metadata text := by
      simpa [selectMetadata, extract_metadata_grobid] using h.symm
    rw [hr] at hd'
    simp [extract_metadata] at hd'
  | parseError =>
    have hr : r = extract_metadata text := by
      simpa [selectMetadata, extract_metadata_grobid] using h.symm
    rw [hr] at hd'
    simp [extract_metadata] at hd'
  | ok doc =>
    cases hg : extract_metadata_grobid (.ok doc) with
    | error e => rw [hg] at h; simp [selectMetadata] at h
    | ok mopt =>
      rw [hg] at h
      cases mopt with
      | none =>
        have hr : r = extract_metadata text := by
          simpa [selectMetadata] using h.symm
        rw [hr] at hd'
        simp [extract_metadata] at hd'
      | some g =>
        have hr : r = g := by
          have hne : (grobidDict g).isEmpty = false := rfl
          simpa [selectMetadata, hne] using h.symm
        rw [hr] at hy' hd'
        have hgy := grobid_year_matches doc g hg d hd'
        rw [hgy] at hy'
        injection hy' with hy2
        exact hy2.symm

theorem year_matches_publication_date_witness : (2020 : Nat) = (PyDate.mk 2020 3 15).year :=
  year_matches_publication_date (.ok dateDocC) []
    { emptyGrobidRecord with publication_date := some ⟨2020, 3, 15⟩, year := some 2020 }
    2020 ⟨2020, 3, 15⟩ rfl rfl rfl

/-! ### C4: date-resolution order -/

/-- C4 counterexample.  First: on `dateDocA` the publicationStmt search
stops at the first node's bare year, so the final record is year-alone even
though the second publicationStmt node carries a fully parsable date.
Second: on `dateDocB` a bare year is recoverable from the imprint node's
text, yet the code recovers bare years only from publicationStmt nodes and
leaves `year` absent. -/
theorem bare_year_resolution_counterexample :
    ((extract_metadata_grobid (.ok dateDocA)).toOption.join.map
      (fun r => (r.year, r.publication_date))) = some (some 2020, none) ∧
    parse_publication_date (some ("2021-05-06".data)) = .ok (some ⟨2021, 5, 6⟩) ∧
    ((extract_metadata_grobid (.ok dateDocB)).toOption.join.map
      (fun r => (r.year, r.publication_date))) = some (none, none) ∧
    extract_year ("in 2020".data) = some 2020 :=
  ⟨rfl, rfl, rfl, rfl⟩

/-- C4 amended: publicationStmt date nodes are searched first, preferring a
truthy machine-readable `when` attribute over the node text; that search
stops at the first node yielding either a parsed date or a bare year (from
the node's truthy text, else its truthy attribute); the imprint nodes are
consulted only when no publicationStmt date parsed, and only for fully
parsed dates — never for bare years; the final year-without-date state
occurs exactly when the publicationStmt search stopped at a bare year and
the imprint search found no date. -/
theorem bare_year_resolution_spec :
    (∀ (w t : Option Str) (ws : Str) (rest : List DateNode) (d : PyDate),
      w = some ws → ws ≠ [] →
      parse_publication_date (some ws) = .ok (some d) →
      pubStmtDateSearch ({ whenAttr := w, text := t } :: rest) = .ok (some d.year, some d)) ∧
    (∀ (pub imp : List DateNode) (y : Nat),
      resolveDates pub imp = .ok (some y, none) →
      pubStmtDateSearch pub = .ok (some y, none) ∧ imprintDateSearch imp = .ok none) ∧
    (∀ (pub imp : List DateNode) (y : Nat),
      pubStmtDateSearch pub = .ok (some y, none) → imprintDateSearch imp = .ok none →
      resolveDates pub imp = .ok (some y, none)) := by
  refine ⟨?_, ?_, ?_⟩
  · intro w t ws rest d hw hne hp
    subst hw
    have hor : pyOrStr (some ws) t = some ws := by simp [pyOrStr, hne]
    simp only [pubStmtDateSearch, hor, hp]
  · intro pub imp y h
    unfold resolveDates at h
    cases hp : pubStmtDateSearch pub with
    | error e => rw [hp] at h; simp at h
    | ok yp =>
      obtain ⟨y0, pd0⟩ := yp
      rw [hp] at h
      cases pd0 with
      | some d0 => simp at h
      | none =>
        cases hi : imprintDateSearch imp with
        | error e => rw [hi] at h; simp at h
        | ok od =>
          rw [hi] at h
          cases od with
          | some d1 => simp at h
          | none =>
            simp only [Except.ok.injEq, Prod.mk.injEq] at h
            obtain ⟨h1, -⟩ := h
            subst h1
            exact ⟨rfl, rfl⟩
  · intro pub imp y h1 h2
    unfold resolveDates
    rw [h1, h2]

theorem bare_year_resolution_spec_witness :
    pubStmtDateSearch ({ whenAttr := some ("2020-03-15".data), text := none } :: []) =
      .ok (some (PyDate.mk 2020 3 15).year, some ⟨2020, 3, 15⟩) ∧
    (pubStmtDateSearch ({ whenAttr := some ("n.d.".data), text := some ("in 2020".data) } :: []) =
        .ok (some 2020, none) ∧
      imprintDateSearch [] = .ok none) ∧
    resolveDates ({ whenAttr := some ("n.d.".data), text := some ("in 2020".data) } :: []) [] =
      .ok (some 2020, none) :=
  ⟨bare_year_resolution_spec.1 (some ("2020-03-15".data)) none ("2020-03-15".data) [] ⟨2020, 3, 15⟩
      rfl (by decide) rfl,
   bare_year_resolution_spec.2.1 _ [] 2020 rfl,
   bare_year_resolution_spec.2.2 _ [] 2020 rfl rfl⟩

/-! ### C5: date parsing -/

theorem yearShapeAt_append (l r : Str) (h : yearShapeAt l = true) :
    yearShapeAt (l ++ r) = true := by
  cases l with
  | nil => simp [yearShapeAt] at h
  | cons a l1 =>
    cases l1 with
    | nil => simp [yearShapeAt] at h
    | cons b l2 =>
      cases l2 with
      | nil => simp [yearShapeAt] at h
      | cons c l3 =>
        cases l3 with
        | nil => simp [yearShapeAt] at h
        | cons d l4 => simpa [yearShapeAt] using h

theorem containsYearToken_append_right (l r : Str) (h : containsYearToken r = true) :
    containsYearToken (l ++ r) = true := by
  induction l with
  | nil => simpa using h
  | cons c cs ih => simp [containsYearToken, ih]

theorem containsYearToken_append_left (l r : Str) (h : containsYearToken l = true) :
    containsYearToken (l ++ r) = true := by
  induction l with
  | nil => simp [containsYearToken] at h
  | cons c cs ih =>
    simp only [containsYearToken, Bool.or_eq_true] at h
    rcases h with h | h
    · have hy := yearShapeAt_append (c :: cs) r h
      rw [List.cons_append] at hy
      simp [containsYearToken, List.cons_append, hy]
    · simp [containsYearToken, ih h]

theorem containsYearToken_strTrim (s : Str) (h : containsYearToken (strTrim s) = true) :
    containsYearToken s = true := by
  obtain ⟨p, q, hs⟩ := strTrim_decomp s
  rw [hs, List.append_assoc]
  exact containsYearToken_append_right p _ (containsYearToken_append_left _ q h)

theorem shape1_eq_none (s : Str) (h : yearShapeAt s = false) : shape1 s = none := by
  simp [shape1, h]

theorem shape2_eq_none (s : Str) (h : yearShapeAt s = false) : shape2 s = none := by
  simp [shape2, h]

theorem shape3_eq_none (s : Str) (h : yearShapeAt s = false) : shape3 s = none := by
  simp [shape3, h]

theorem search1_eq_none (s : Str) (h : containsYearToken s = false) :
    ∀ prev, search1 prev s = none := by
  induction s with
  | nil => intro prev; rfl
  | cons c rest ih =>
    intro prev
    rw [containsYearToken, Bool.or_eq_false_iff] at h
    obtain ⟨h1, h2⟩ := h
    rw [search1, shape1_eq_none _ h1, ite_self]
    exact ih h2 (some c)

theorem search2_eq_none (s : Str) (h : containsYearToken s = false) :
    ∀ prev, search2 prev s = none := by
  induction s with
  | nil => intro prev; rfl
  | cons c rest ih =>
    intro prev
    rw [containsYearToken, Bool.or_eq_false_iff] at h
    obtain ⟨h1, h2⟩ := h
    rw [search2, shape2_eq_none _ h1, ite_self]
    exact ih h2 (some c)

theorem search3_eq_none (s : Str) (h : containsYearToken s = false) :
    ∀ prev, search3 prev s = none := by
  induction s with
  | nil => intro prev; rfl
  | cons c rest ih =>
    intro prev
    rw [containsYearToken, Bool.or_eq_false_iff] at h
    obtain ⟨h1, h2⟩ := h
    rw [search3, shape3_eq_none _ h1, ite_self]
    exact ih h2 (some c)

theorem parse_publication_date_no_year (s : Str) (h : containsYearToken s = false) :
    parse_publication_date (some s) = .ok none := by
  by_cases hnil : s = []
  · simp [parse_publication_date, hnil]
  · have htr : containsYearToken (strTrim s) = false := by
      cases hh : containsYearToken (strTrim s) with
      | false => rfl
      | true => rw [containsYearToken_strTrim s hh] at h; exact h
    simp only [parse_publication_date, hnil, if_neg, if_false,
      search1_eq_none _ htr, search2_eq_none _ htr, search3_eq_none _ htr]

/-- C5: date parsing tries full ISO date, then year-month (day defaulting
to 1), then bare year (month and day defaulting to 1), stopping at the
first match — also when the date is embedded in surrounding text — and
returns no result whenever the input contains no `19xx`/`20xx` year. -/
theorem parse_publication_date_spec :
    parse_publication_date (some ("2020-03-15".data)) = .ok (some ⟨2020, 3, 15⟩) ∧
    parse_publication_date (some ("2020-03".data)) = .ok (some ⟨2020, 3, 1⟩) ∧
    parse_publication_date (some ("2020".data)) = .ok (some ⟨2020, 1, 1⟩) ∧
    parse_publication_date (some ("published on 2020-03-15, online".data)) =
      .ok (some ⟨2020, 3, 15⟩) ∧
    ∀ s : Str, containsYearToken s = false → parse_publication_date (some s) = .ok none :=
  ⟨rfl, rfl, rfl, rfl, parse_publication_date_no_year⟩

theorem parse_publication_date_spec_witness :
    parse_publication_date (some ("no date here".data)) = .ok none :=
  parse_publication_date_spec.2.2.2.2 ("no date here".data) (by decide)

/-! ### C9: sorted, deduplicated affiliation and country sets -/

theorem strLt_irrefl (l : Str) : strLt l l = false := by
  induction l with
  | nil => rfl
  | cons a xs ih => simp [strLt, lt_irrefl, ih]

theorem strLt_cons_iff (x y : Char) (xs ys : Str) :
    strLt (x :: xs) (y :: ys) = true ↔ x < y ∨ (x = y ∧ strLt xs ys = true) := by
  simp only [strLt]
  rcases lt_trichotomy x y with h | h | h
  · simp [h]
  · subst h
    simp [lt_irrefl]
  · have h1 : ¬x < y := lt_asymm h
    have h2 : x ≠ y := by
      rintro rfl
      exact lt_irrefl _ h
    simp [h1, h, h2]

theorem strLt_trans : ∀ (a b c : Str), strLt a b = true → strLt b c = true →
    strLt a c = true := by
  intro a
  induction a with
  | nil =>
    intro b c h1 h2
    cases b with
    | nil => simp [strLt] at h1
    | cons y ys =>
      cases c with
      | nil => simp [strLt] at h2
      | cons z zs => rfl
  | cons x xs ih =>
    intro b c h1 h2
    cases b with
    | nil => simp [strLt] at h1
    | cons y ys =>
      cases c with
      | nil => simp [strLt] at h2
      | cons z zs =>
        rw [strLt_cons_iff] at h1 h2 ⊢
        rcases h1 with h1 | ⟨rfl, h1⟩
        · rcases h2 with h2 | ⟨rfl, h2⟩
          · exact Or.inl (lt_trans h1 h2)
          · exact Or.inl h1
        · rcases h2 with h2 | ⟨rfl, h2⟩
          · exact Or.inl h2
          · exact Or.inr ⟨rfl, ih ys zs h1 h2⟩

theorem strLt_conn : ∀ (a b : Str), strLt a b = false → a ≠ b → strLt b a = true := by
  intro a
  induction a with
  | nil =>
    intro b h hne
    cases b with
    | nil => exact absurd rfl hne
    | cons y ys => simp [strLt] at h
  | cons x xs ih =>
    intro b h hne
    cases b with
    | nil => rfl
    | cons y ys =>
      have h' : ¬(x < y ∨ (x = y ∧ strLt xs ys = true)) := by
        rw [← strLt_cons_iff]
        simp [h]
      rw [strLt_cons_iff]
      by_cases hyx : y < x
      · exact Or.inl hyx
      · have hxy : ¬x < y := fun hl => h' (Or.inl hl)
        have hxyeq : x = y := le_antisymm (le_of_not_lt hyx) (le_of_not_lt hxy)
        subst hxyeq
        have hxs : strLt xs ys = false := by
          cases hh : strLt xs ys with
          | false => rfl
          | true => exact absurd (Or.inr ⟨rfl, hh⟩) h'
        have hne2 : xs ≠ ys := fun he => hne (by rw [he])
        exact Or.inr ⟨rfl, ih ys hxs hne2⟩

theorem mem_insertDedup (x a : Str) (l : List Str) :
    a ∈ insertDedup x l ↔ a = x ∨ a ∈ l := by
  induction l with
  | nil => simp [insertDedup]
  | cons y ys ih =>
    simp only [insertDedup]
    by_cases h1 : strLt x y = true
    · rw [if_pos h1]
      simp [List.mem_cons]
    · rw [if_neg h1]
      by_cases h2 : x = y
      · rw [if_pos h2]
        subst h2
        simp only [List.mem_cons]
        tauto
      · rw [if_neg h2]
        simp only [List.mem_cons, ih]
        tauto

theorem pairwise_insertDedup (x : Str) (l : List Str)
    (h : l.Pairwise (fun a b => strLt a b = true)) :
    (insertDedup x l).Pairwise (fun a b => strLt a b = true) := by
  induction l with
  | nil => simp [insertDedup]
  | cons y ys ih =>
    rw [List.pairwise_cons] at h
    obtain ⟨hy, hys⟩ := h
    simp only [insertDedup]
    by_cases h1 : strLt x y = true
    · rw [if_pos h1]
      refine List.Pairwise.cons ?_ (List.Pairwise.cons hy hys)
      intro b hb
      rcases List.mem_cons.mp hb with rfl | hb2
      · exact h1
      · exact strLt_trans x y b h1 (hy b hb2)
    · rw [if_neg h1]
      by_cases h2 : x = y
      · rw [if_pos h2]
        exact List.Pairwise.cons hy hys
      · rw [if_neg h2]
        refine List.Pairwise.cons ?_ (ih hys)
        intro b hb
        rcases (mem_insertDedup x b ys).mp hb with rfl | hb2
        · exact strLt_conn b y (by simpa using h1) h2
        · exact hy b hb2

theorem mem_sortedSet (a : Str) (xs : List Str) : a ∈ sortedSet xs ↔ a ∈ xs := by
  induction xs with
  | nil => simp [sortedSet]
  | cons x l ih => simp [sortedSet, mem_insertDedup, ih]

theorem pairwise_sortedSet (xs : List Str) :
    (sortedSet xs).Pairwise (fun a b => strLt a b = true) := by
  induction xs with
  | nil => simp [sortedSet]
  | cons x l ih => exact pairwise_insertDedup x _ ih

theorem nodup_sortedSet (xs : List Str) : (sortedSet xs).Nodup := by
  refine (pairwise_sortedSet xs).imp ?_
  intro a b hab he
  subst he
  rw [strLt_irrefl] at hab
  exact Bool.false_ne_true hab

theorem sortedSetField_spec (A l : List Str)
    (hf : (if sortedSet A = [] then none else some (sortedSet A)) = some l) :
    l ≠ [] ∧ l.Pairwise (fun a b => strLt a b = true) ∧ l.Nodup := by
  by_cases hA : sortedSet A = []
  · rw [if_pos hA] at hf
    exact absurd hf (by simp)
  · rw [if_neg hA] at hf
    injection hf with hf
    subst hf
    exact ⟨hA, pairwise_sortedSet A, nodup_sortedSet A⟩

/-- C9: the structured path stores affiliations and countries deduplicated
and strictly sorted; `["MIT", "MIT", "Stanford"]` is stored as
`["MIT", "Stanford"]`, and every stored set holds exactly the collected
values. -/
theorem affiliations_sorted_dedup :
    sortedSet ("MIT".data :: "MIT".data :: "Stanford".data :: []) =
      "MIT".data :: "Stanford".data :: [] ∧
    (∀ (xs : List Str) (x : Str), x ∈ sortedSet xs ↔ x ∈ xs) ∧
    (∀ (resp : GrobidResponse) (r : Record) (l : List Str),
      extract_metadata_grobid resp = .ok (some r) →
      (r.affiliations = some l ∨ r.countries = some l) →
      l ≠ [] ∧ l.Pairwise (fun a b => strLt a b = true) ∧ l.Nodup) := by
  refine ⟨by decide, fun xs x => mem_sortedSet x xs, ?_⟩
  intro resp r l hres hfield
  cases resp with
  | transportError => simp [extract_metadata_grobid] at hres
  | parseError => simp [extract_metadata_grobid] at hres
  | ok doc =>
    simp only [extract_metadata_grobid] at hres
    cases hd : resolveDates doc.pubStmtDates doc.imprintDates with
    | error e => rw [hd] at hres; simp at hres
    | ok yp =>
      obtain ⟨y, pd⟩ := yp
      rw [hd] at hres
      simp only [Except.ok.injEq, Option.some.injEq] at hres
      subst hres
      rcases hfield with hf | hf
      · exact sortedSetField_spec _ _ hf
      · exact sortedSetField_spec _ _ hf

theorem affiliations_sorted_dedup_witness :
    ("MIT".data :: "Stanford".data :: [] : List Str) ≠ [] ∧
    ("MIT".data :: "Stanford".data :: [] : List Str).Pairwise (fun a b => strLt a b = true) ∧
    ("MIT".data :: "Stanford".data :: [] : List Str).Nodup :=
  affiliations_sorted_dedup.2.2 (.ok affDoc)
    { emptyGrobidRecord with
      authors := some ("Doe".data :: [])
      affiliations := some ("MIT".data :: "Stanford".data :: []) }
    ("MIT".data :: "Stanford".data :: []) rfl (Or.inl rfl)

/-! ### C10: normalize_whitespace -/

theorem wsSplit_ws_cons (c : Char) (rest : Str) (h : pyIsSpace c = true) :
    wsSplit (c :: rest) = wsSplit rest := by
  rw [wsSplit.eq_def]
  simp [h]

theorem wsSplit_nonws_nil (c : Char) (h : pyIsSpace c = false) :
    wsSplit (c :: []) = (c :: []) :: [] := by
  rw [wsSplit.eq_def]
  simp [h]

theorem wsSplit_nonws_ws (c d : Char) (rest : Str) (hc : pyIsSpace c = false)
    (hd : pyIsSpace d = true) :
    wsSplit (c :: d :: rest) = (c :: []) :: wsSplit (d :: rest) := by
  rw [wsSplit.eq_def]
  simp [hc, hd]

theorem wsSplit_nonws_head (d : Char) (rest : Str) (hd : pyIsSpace d = false) :
    ∃ w ws2, wsSplit (d :: rest) = (d :: w) :: ws2 := by
  cases rest with
  | nil => exact ⟨[], [], wsSplit_nonws_nil d hd⟩
  | cons e rest' =>
    by_cases he : pyIsSpace e = true
    · exact ⟨[], wsSplit (e :: rest'), wsSplit_nonws_ws d e rest' hd he⟩
    · rw [Bool.not_eq_true] at he
      cases hws : wsSplit (e :: rest') with
      | nil => exact ⟨[], [], by rw [wsSplit.eq_def]; simp [hd, he, hws]⟩
      | cons w0 ws' => exact ⟨w0, ws', by rw [wsSplit.eq_def]; simp [hd, he, hws]⟩

theorem wsSplit_extend (c d : Char) (rest : Str) (hc : pyIsSpace c = false)
    (hd : pyIsSpace d = false) (w : Str) (ws2 : List Str)
    (hw : wsSplit (d :: rest) = (d :: w) :: ws2) :
    wsSplit (c :: d :: rest) = (c :: d :: w) :: ws2 := by
  rw [wsSplit.eq_def]
  simp [hc, hd, hw]

theorem wsSplit_pieces (s : Str) :
    ∀ p ∈ wsSplit s, p ≠ [] ∧ ∀ c ∈ p, pyIsSpace c = false := by
  induction s with
  | nil => simp [wsSplit]
  | cons c rest ih =>
    by_cases hc : pyIsSpace c = true
    · rw [wsSplit_ws_cons c rest hc]
      exact ih
    · rw [Bool.not_eq_true] at hc
      intro p hp
      cases rest with
      | nil =>
        rw [wsSplit_nonws_nil c hc] at hp
        simp only [List.mem_singleton] at hp
        subst hp
        refine ⟨by simp, ?_⟩
        intro a ha
        simp only [List.mem_singleton] at ha
        subst ha
        exact hc
      | cons d rest' =>
        by_cases hd : pyIsSpace d = true
        · rw [wsSplit_nonws_ws c d rest' hc hd] at hp
          rcases List.mem_cons.mp hp with rfl | hp2
          · exact ⟨by simp, by intro a ha; simp only [List.mem_singleton] at ha; subst ha; exact hc⟩
          · exact ih p hp2
        · rw [Bool.not_eq_true] at hd
          obtain ⟨w, ws2, hw⟩ := wsSplit_nonws_head d rest' hd
          rw [wsSplit_extend c d rest' hc hd w ws2 hw] at hp
          have hdw := ih (d :: w) (by rw [hw]; exact List.mem_cons_self _ _)
          rcases List.mem_cons.mp hp with rfl | hp2
          · refine ⟨by simp, ?_⟩
            intro a ha
            rcases List.mem_cons.mp ha with rfl | ha2
            · exact hc
            · exact hdw.2 a ha2
          · exact ih p (by rw [hw]; exact List.mem_cons_of_mem _ hp2)

theorem wsSplit_eq_nil_iff (s : Str) :
    wsSplit s = [] ↔ ∀ c ∈ s, pyIsSpace c = true := by
  induction s with
  | nil => simp [wsSplit]
  | cons c rest ih =>
    by_cases hc : pyIsSpace c = true
    · rw [wsSplit_ws_cons c rest hc, ih]
      simp [hc]
    · rw [Bool.not_eq_true] at hc
      obtain ⟨w, ws2, hw⟩ := wsSplit_nonws_head c rest hc
      rw [hw]
      simp only [List.mem_cons]
      constructor
      · intro h
        exact absurd h (by simp)
      · intro h
        have := h c (Or.inl rfl)
        rw [hc] at this
        exact absurd this (by simp)

theorem wsSplit_single_word (w : Str) (hne : w ≠ [])
    (hws : ∀ c ∈ w, pyIsSpace c = false) : wsSplit w = w :: [] := by
  induction w with
  | nil => exact absurd rfl hne
  | cons c w' ih =>
    have hc : pyIsSpace c = false := hws c (by simp)
    cases w' with
    | nil => exact wsSplit_nonws_nil c hc
    | cons d w'' =>
      have hd : pyIsSpace d = false := hws d (by simp)
      have hw' := ih (by simp) (fun a ha => hws a (List.mem_cons_of_mem _ ha))
      exact wsSplit_extend c d w'' hc hd w'' [] hw'

theorem wsSplit_word_sep (w t : Str) (hne : w ≠ [])
    (hws : ∀ c ∈ w, pyIsSpace c = false) :
    wsSplit (w ++ ' ' :: t) = w :: wsSplit t := by
  induction w with
  | nil => exact absurd rfl hne
  | cons c w' ih =>
    have hc : pyIsSpace c = false := hws c (by simp)
    cases w' with
    | nil =>
      rw [List.cons_append, List.nil_append]
      rw [wsSplit_nonws_ws c ' ' t hc (by decide)]
      rw [wsSplit_ws_cons ' ' t (by decide)]
    | cons d w'' =>
      have hd : pyIsSpace d = false := hws d (by simp)
      have ihw := ih (by simp) (fun a ha => hws a (List.mem_cons_of_mem _ ha))
      rw [List.cons_append] at ihw ⊢
      exact wsSplit_extend c d (w'' ++ ' ' :: t) hc hd w'' (wsSplit t) ihw

theorem joinWith_ne_nil (L : List Str) (hL : L ≠ []) (h1 : ∀ p ∈ L, p ≠ []) :
    joinWith (' ' :: []) L ≠ [] := by
  cases L with
  | nil => exact absurd rfl hL
  | cons x rest =>
    cases rest with
    | nil => exact h1 x (by simp)
    | cons y rest' =>
      show x ++ (' ' :: []) ++ _ ≠ []
      simp [List.append_eq_nil]

theorem wsSplit_joinWith (L : List Str)
    (h : ∀ p ∈ L, p ≠ [] ∧ ∀ c ∈ p, pyIsSpace c = false) :
    wsSplit (joinWith (' ' :: []) L) = L := by
  induction L with
  | nil => rfl
  | cons x rest ih =>
    obtain ⟨hne, hws⟩ := h x (by simp)
    cases rest with
    | nil => exact wsSplit_single_word x hne hws
    | cons y rest' =>
      have ih' := ih (fun p hp => h p (List.mem_cons_of_mem _ hp))
      show wsSplit (x ++ (' ' :: []) ++ joinWith (' ' :: []) (y :: rest')) = _
      rw [List.append_assoc, List.singleton_append]
      rw [wsSplit_word_sep x (joinWith (' ' :: []) (y :: rest')) hne hws, ih']

theorem joinWith_head_nonws (L : List Str)
    (h : ∀ p ∈ L, p ≠ [] ∧ ∀ c ∈ p, pyIsSpace c = false) :
    ∀ c, (joinWith (' ' :: []) L).head? = some c → pyIsSpace c = false := by
  cases L with
  | nil => intro c hc; simp [joinWith] at hc
  | cons x rest =>
    obtain ⟨hne, hws⟩ := h x (by simp)
    intro c hc
    have hx : (joinWith (' ' :: []) (x :: rest)).head? = x.head? := by
      cases rest with
      | nil => rfl
      | cons y rest' =>
        show (x ++ (' ' :: []) ++ _).head? = x.head?
        rw [List.append_assoc]
        exact List.head?_append_of_ne_nil x hne
    rw [hx] at hc
    cases x with
    | nil => exact absurd rfl hne
    | cons a x' =>
      simp only [List.head?_cons, Option.some.injEq] at hc
      subst hc
      exact hws _ (by simp)

theorem joinWith_last_nonws (L : List Str)
    (h : ∀ p ∈ L, p ≠ [] ∧ ∀ c ∈ p, pyIsSpace c = false) :
    ∀ c, (joinWith (' ' :: []) L).getLast? = some c → pyIsSpace c = false := by
  induction L with
  | nil => intro c hc; simp [joinWith] at hc
  | cons x rest ih =>
    intro c hc
    cases rest with
    | nil =>
      obtain ⟨hne, hws⟩ := h x (by simp)
      exact hws c (List.mem_of_mem_getLast? (Option.mem_def.mpr hc))
    | cons y rest' =>
      have ihc := ih (fun p hp => h p (List.mem_cons_of_mem _ hp))
      have hJne : joinWith (' ' :: []) (y :: rest') ≠ [] :=
        joinWith_ne_nil _ (by simp) (fun p hp => (h p (List.mem_cons_of_mem _ hp)).1)
      have hlast : (joinWith (' ' :: []) (x :: y :: rest')).getLast? =
          (joinWith (' ' :: []) (y :: rest')).getLast? := by
        show (x ++ (' ' :: []) ++ _).getLast? = _
        rw [List.append_assoc, List.getLast?_append_of_ne_nil _ (by simp),
          List.getLast?_append_of_ne_nil _ hJne]
      rw [hlast] at hc
      exact ihc c hc

theorem nw_some_eq (v : Str) (hv : v ≠ []) (hL : wsSplit v ≠ []) :
    normalize_whitespace (some v) = some (joinWith (' ' :: []) (wsSplit v)) := by
  have hp := wsSplit_pieces v
  have htrim : strTrim (joinWith (' ' :: []) (wsSplit v)) = joinWith (' ' :: []) (wsSplit v) :=
    strTrim_no_op _ (joinWith_head_nonws _ hp)
      (fun c hc => joinWith_last_nonws _ hp c (by rwa [List.head?_reverse] at hc))
  have hne := joinWith_ne_nil (wsSplit v) hL (fun p hp2 => (hp p hp2).1)
  simp only [normalize_whitespace, hv, if_false, htrim, hne, if_neg]

theorem nw_allws (v : Str) (hL : wsSplit v = []) :
    normalize_whitespace (some v) = none := by
  by_cases hv : v = []
  · simp [normalize_whitespace, hv]
  · simp [normalize_whitespace, hv, hL, joinWith, strTrim, strTrimLeft]

/-- C10: whitespace normalization returns no value exactly for all-whitespace
input (including the empty string), and otherwise a non-empty string that is
a single-space join of non-empty whitespace-free pieces (so runs are
collapsed and ends trimmed), never the empty string; it is idempotent on its
own output. -/
theorem normalize_whitespace_spec (v : Str) :
    (normalize_whitespace (some v) = none ↔ ∀ c ∈ v, pyIsSpace c = true) ∧
    (∀ r, normalize_whitespace (some v) = some r →
      r ≠ [] ∧
      (∃ L, L ≠ [] ∧ (∀ p ∈ L, p ≠ [] ∧ ∀ c ∈ p, pyIsSpace c = false) ∧
        r = joinWith (' ' :: []) L) ∧
      normalize_whitespace (some r) = some r) := by
  constructor
  · by_cases hL : wsSplit v = []
    · rw [nw_allws v hL]
      exact iff_of_true rfl ((wsSplit_eq_nil_iff v).mp hL)
    · have hv : v ≠ [] := by
        intro he
        rw [he] at hL
        exact hL rfl
      rw [nw_some_eq v hv hL]
      exact iff_of_false (by simp) (fun hall => hL ((wsSplit_eq_nil_iff v).mpr hall))
  · intro r hr
    by_cases hL : wsSplit v = []
    · rw [nw_allws v hL] at hr
      exact absurd hr (by simp)
    · have hv : v ≠ [] := by
        intro he
        rw [he] at hL
        exact hL rfl
      rw [nw_some_eq v hv hL] at hr
      injection hr with hr
      subst hr
      have hp := wsSplit_pieces v
      have hJne := joinWith_ne_nil (wsSplit v) hL (fun p hp2 => (hp p hp2).1)
      have hws : wsSplit (joinWith (' ' :: []) (wsSplit v)) = wsSplit v :=
        wsSplit_joinWith _ hp
      refine ⟨hJne, ⟨wsSplit v, hL, hp, rfl⟩, ?_⟩
      rw [nw_some_eq _ hJne (by rw [hws]; exact hL), hws]

theorem normalize_whitespace_spec_witness :
    (normalize_whitespace (some (' ' :: ' ' :: [])) = none) ∧
    ("a b".data ≠ [] ∧
      (∃ L, L ≠ [] ∧ (∀ p ∈ L, p ≠ [] ∧ ∀ c ∈ p, pyIsSpace c = false) ∧
        "a b".data = joinWith (' ' :: []) L) ∧
      normalize_whitespace (some ("a b".data)) = some ("a b".data)) :=
  ⟨(normalize_whitespace_spec (' ' :: ' ' :: [])).1.mpr (by decide),
   (normalize_whitespace_spec ("a  b".data)).2 ("a b".data) (by decide)⟩
